import Mathlib

/-!
Shallow embedding of `generate_app_icons.py` (repository myyc/nhac): the
icon-generation pipeline of class `IconGenerator`.  Raster images are
modelled as a width, a height and a total pixel function; machine bytes are
`Nat` (the recolor steps only copy channel values, so no modular arithmetic
arises).  The decimal float constants of the source (`ICON_SCALE = 0.45`,
`ICON_OFFSET_X = 0.03`, the `0.8` notification padding) are embedded as
exact truncations, which agree with the float expressions at every concrete
size the program uses.  The aspect-ratio arithmetic (`aspect = w / h`,
`target_size / aspect`, `target_size * aspect`) is embedded as IEEE-754
binary64: `roundFrac` rounds an exact non-negative fraction to the nearest
double (round half to even) with unbounded exponent range, which coincides
with binary64 whenever no overflow or subnormal is reached — impossible for
the dimension ratios of this pipeline — and CPython's int/int true division
and int-times-float product are exactly such correctly rounded exact
operations.  External
processes (the SVG rasterizers) and PIL's LANCZOS resampling kernel are
inputs of the model: the functions that invoke them take the produced image,
or the resampling pixel function, as an argument.
-/

namespace NhacIcons

/-- One RGBA pixel as numpy stores it: four byte channels. -/
structure Pixel where
  r : Nat
  g : Nat
  b : Nat
  a : Nat
deriving DecidableEq, Repr

/-- A raster image: PIL's `Image` with mode RGBA.  `pix x y` is the pixel at
column `x`, row `y`; coordinates outside `w × h` are unconstrained. -/
structure Img where
  w : Nat
  h : Nat
  pix : Nat → Nat → Pixel

/-- `Image.new('RGBA', (w, h), (0, 0, 0, 0))`: a transparent canvas. -/
def newRGBA (w h : Nat) : Img :=
  Img.mk w h (fun _ _ => Pixel.mk 0 0 0 0)

/-- Pillow's MULDIV255 macro: `tmp = a*b + 128; ((tmp >> 8) + tmp) >> 8`. -/
def muldiv255 (a b : Nat) : Nat :=
  ((a * b + 128) / 256 + (a * b + 128)) / 256

/-- Pillow's per-channel BLEND for a paste through a mask value `m`. -/
def blendCh (d s m : Nat) : Nat :=
  muldiv255 d (255 - m) + muldiv255 s m

/-- One destination pixel of `dst.paste(src, _, src)`: every band of the
destination is blended with the source through the source's alpha band. -/
def pasteMaskPixel (d s : Pixel) : Pixel :=
  Pixel.mk (blendCh d.r s.r s.a) (blendCh d.g s.g s.a)
    (blendCh d.b s.b s.a) (blendCh d.a s.a s.a)

/-- `dst.paste(src, (x, y), src)`: inside the pasted region the pixels are
blended through the source's alpha; outside it the destination is kept. -/
def pasteRGBA (dst src : Img) (x y : Nat) : Img :=
  Img.mk dst.w dst.h (fun px py =>
    if x ≤ px ∧ px < x + src.w ∧ y ≤ py ∧ py < y + src.h then
      pasteMaskPixel (dst.pix px py) (src.pix (px - x) (py - y))
    else
      dst.pix px py)

/-- The recolor loop of `create_white_foreground` (lines 211-216) and of
`create_notification_icon` (lines 424-429), per pixel: a pixel with any
opacity becomes white with its alpha kept, a fully transparent pixel is left
as it is. -/
def whitePixel (p : Pixel) : Pixel :=
  if 0 < p.a then Pixel.mk 255 255 255 p.a else p

/-- The recolor loop of `create_monochrome_icon` (lines 273-283), per pixel:
the output array starts as `np.zeros_like(data)` and a pixel with any
opacity is written as black with its alpha kept. -/
def monoPixel (p : Pixel) : Pixel :=
  if 0 < p.a then Pixel.mk 0 0 0 p.a else Pixel.mk 0 0 0 0

/-- The whole-canvas white recolor (`data` rewritten in place). -/
def whiteOut (img : Img) : Img :=
  Img.mk img.w img.h (fun x y => whitePixel (img.pix x y))

/-- The whole-canvas monochrome recolor (`mono_data`). -/
def monoOut (img : Img) : Img :=
  Img.mk img.w img.h (fun x y => monoPixel (img.pix x y))

/-- `ICON_SCALE = 0.45`; `target_size = int(size * ICON_SCALE)`, embedded as
the exact truncation `size * 45 / 100` (the float product truncates to the
same integer at every launcher size the program uses). -/
def targetSize (size : Nat) : Nat := size * 45 / 100

/-- `int(size * 0.8)` of `create_notification_icon` (80% to leave padding). -/
def notifTargetSize (size : Nat) : Nat := size * 8 / 10

/-- `int(size * ICON_OFFSET_X)` with `ICON_OFFSET_X = 0.03`: the horizontal
offset added in `create_white_foreground` and `create_monochrome_icon`. -/
def iconOffsetX (size : Nat) : Nat := size * 3 / 100

/-- `⌊log2 n⌋` by repeated halving; the first argument is fuel bounding the
recursion depth. -/
def log2fuel : Nat → Nat → Nat
  | 0, _ => 0
  | fuel + 1, n => if n ≤ 1 then 0 else log2fuel fuel (n / 2) + 1

/-- `⌊log2 n⌋` for `n ≥ 1`. -/
def natLog2 (n : Nat) : Nat := log2fuel n n

/-- `⌊log2 (a / b)⌋` of a positive fraction: the binade of the value.  For
`a/b < 1` the reciprocal `b/a` lies in `[2^f, 2^(f+1))`; the exponent is
`-f` exactly when `b/a` is the power `2^f` itself, else `-f - 1`. -/
def fracLog2 (a b : Nat) : ℤ :=
  if b ≤ a then (natLog2 (a / b) : ℤ)
  else if b = a * 2 ^ natLog2 (b / a) then -(natLog2 (b / a) : ℤ)
  else -(natLog2 (b / a) : ℤ) - 1

/-- `a / b` rounded to the nearest integer, ties to even — IEEE-754's
default rounding of a significand.  The quotient is `a / b` with remainder
`a % b`; the fraction part is below, above or exactly one half as twice the
remainder compares with `b`. -/
def rheFrac (a b : Nat) : Nat :=
  if 2 * (a % b) < b then a / b
  else if b < 2 * (a % b) then a / b + 1
  else if (a / b) % 2 = 0 then a / b else a / b + 1

/-- The IEEE-754 binary64 value nearest to the non-negative fraction
`a / b` (with `b > 0`), returned as an exact fraction (numerator,
denominator): the value is scaled into `[2^52, 2^53)` by its binade
`e = fracLog2 a b`, the significand rounded half to even, and scaled back.
The exponent range is unbounded, which coincides with binary64 whenever the
true result neither overflows nor falls into the subnormal range. -/
def roundFrac (a b : Nat) : Nat × Nat :=
  if a = 0 then (0, 1)
  else if 52 ≤ fracLog2 a b then
    (rheFrac a (b * 2 ^ (fracLog2 a b - 52).toNat) *
      2 ^ (fracLog2 a b - 52).toNat, 1)
  else
    (rheFrac (a * 2 ^ (52 - fracLog2 a b).toNat) b,
     2 ^ (52 - fracLog2 a b).toNat)

/-- Python `int()` on the non-negative fraction: truncation. -/
def fracTrunc (p : Nat × Nat) : Nat := p.1 / p.2

/-- The exact rational value of a fraction pair. -/
def fracVal (p : Nat × Nat) : ℚ := (p.1 : ℚ) / (p.2 : ℚ)

/-- The aspect-preserving resize dimensions shared by `create_white_foreground`
(lines 184-192), `create_monochrome_icon` (lines 248-257) and
`create_notification_icon` (lines 401-410), with the float arithmetic
embedded as binary64: `aspect = w / h` is the correctly rounded true
quotient `roundFrac w h`; `aspect > 1` compares that double with one; and
`int(target / aspect)` / `int(target * aspect)` round the exact quotient or
product with the double `aspect` (CPython's float division and
multiplication are correctly rounded) and truncate. -/
def resizeDims (w h target : Nat) : Nat × Nat :=
  let aspect := roundFrac w h
  if aspect.2 < aspect.1 then
    (target, fracTrunc (roundFrac (target * aspect.2) aspect.1))
  else
    (fracTrunc (roundFrac (target * aspect.1) aspect.2), target)

/-- Paste x of `create_white_foreground` / `create_monochrome_icon`:
`(size - new_w) // 2 + int(size * ICON_OFFSET_X)` (lines 201, 266). -/
def foregroundPasteX (size new_w : Nat) : Nat :=
  (size - new_w) / 2 + iconOffsetX size

/-- Paste y of `create_white_foreground` / `create_monochrome_icon`:
`(size - new_h) // 2` (lines 202, 267). -/
def foregroundPasteY (size new_h : Nat) : Nat := (size - new_h) / 2

/-- Paste x of `create_notification_icon`: `(size - new_w) // 2` (line 418). -/
def notificationPasteX (size new_w : Nat) : Nat := (size - new_w) / 2

/-- Paste y of `create_notification_icon`: `(size - new_h) // 2` (line 419). -/
def notificationPasteY (size new_h : Nat) : Nat := (size - new_h) / 2

/-- `img.crop((left, upper, right, lower))`. -/
def cropImg (img : Img) (box : Nat × Nat × Nat × Nat) : Img :=
  Img.mk (box.2.2.1 - box.1) (box.2.2.2 - box.2.1)
    (fun x y => img.pix (box.1 + x) (box.2.1 + y))

/-- The coordinates, row by row, of the pixels with non-zero alpha. -/
def alphaCoords (img : Img) : List (Nat × Nat) :=
  (List.range img.h).flatMap (fun y =>
    (List.range img.w).filterMap (fun x =>
      if (img.pix x y).a ≠ 0 then some (x, y) else none))

/-- `img.getbbox()` on an RGBA image (Pillow considers the alpha band only):
`None` when every pixel is fully transparent, otherwise the smallest
`(left, upper, right, lower)` box holding every pixel with non-zero alpha. -/
def getbbox (img : Img) : Option (Nat × Nat × Nat × Nat) :=
  match alphaCoords img with
  | [] => none
  | c :: cs =>
      some (((c :: cs).map Prod.fst).foldl Nat.min c.1,
            ((c :: cs).map Prod.snd).foldl Nat.min c.2,
            ((c :: cs).map Prod.fst).foldl Nat.max c.1 + 1,
            ((c :: cs).map Prod.snd).foldl Nat.max c.2 + 1)

/-- `convert_svg_to_png_native`, after the external rasterizer produced
`img`: a transparent `size × size` canvas with `img` pasted centered
(lines 146-160). -/
def convert_svg_to_png_native (size : Nat) (img : Img) : Img :=
  let square_img := newRGBA size size
  let x := (size - img.w) / 2
  let y := (size - img.h) / 2
  pasteRGBA square_img img x y

/-- The Python runtime error a claim refers to: reading a local variable the
function never assigned. -/
inductive PyErr where
  | unboundLocal
deriving DecidableEq, Repr

/-- PIL's `content.resize((new_w, new_h), Image.Resampling.LANCZOS)` is a
floating-point convolution; the pipeline functions take its pixel function
as the argument `resample` and force the documented output dimensions. -/
def resizeTo (resample : Img → Nat → Nat → Nat → Nat → Pixel)
    (img : Img) (nw nh : Nat) : Img :=
  Img.mk nw nh (resample img nw nh)

/-- `create_white_foreground` for one launcher size, after the rasterized
image `img` was loaded (lines 174-226): the returned pair is the list of
written PNGs (path, image) and the function's result — the `output_path`
it returns, or the error its `return` raises when `bbox` is `None` and
`output_path` was never assigned. -/
def create_white_foreground (resample : Img → Nat → Nat → Nat → Nat → Pixel)
    (size : Nat) (img : Img) : List (String × Img) × Except PyErr String :=
  match getbbox img with
  | some bbox =>
      let content := cropImg img bbox
      let nd := resizeDims content.w content.h (targetSize size)
      let content2 := resizeTo resample content nd.1 nd.2
      let canvas := newRGBA size size
      let canvas2 := pasteRGBA canvas content2
        (foregroundPasteX size nd.1) (foregroundPasteY size nd.2)
      let result := whiteOut canvas2
      ([("ic_launcher_foreground.png", result)],
       Except.ok "ic_launcher_foreground.png")
  | none => ([], Except.error PyErr.unboundLocal)

/-- `create_monochrome_icon` for one launcher size, after the rasterized
image `img` was loaded (lines 228-293); same shape as
`create_white_foreground` with the monochrome recolor. -/
def create_monochrome_icon (resample : Img → Nat → Nat → Nat → Nat → Pixel)
    (size : Nat) (img : Img) : List (String × Img) × Except PyErr String :=
  match getbbox img with
  | some bbox =>
      let content := cropImg img bbox
      let nd := resizeDims content.w content.h (targetSize size)
      let content2 := resizeTo resample content nd.1 nd.2
      let canvas := newRGBA size size
      let canvas2 := pasteRGBA canvas content2
        (foregroundPasteX size nd.1) (foregroundPasteY size nd.2)
      let result := monoOut canvas2
      ([("ic_launcher_monochrome.png", result)],
       Except.ok "ic_launcher_monochrome.png")
  | none => ([], Except.error PyErr.unboundLocal)

/-- One size of `create_notification_icon`'s loop, after the rasterized image
was loaded (lines 393-434): here the target is 80% of the size, the paste has
no horizontal offset, and a `None` bbox writes nothing without any error. -/
def create_notification_icon_size
    (resample : Img → Nat → Nat → Nat → Nat → Pixel)
    (size : Nat) (img : Img) : List (String × Img) :=
  match getbbox img with
  | some bbox =>
      let content := cropImg img bbox
      let nd := resizeDims content.w content.h (notifTargetSize size)
      let content2 := resizeTo resample content nd.1 nd.2
      let canvas := newRGBA size size
      let canvas2 := pasteRGBA canvas content2
        (notificationPasteX size nd.1) (notificationPasteY size nd.2)
      let result := whiteOut canvas2
      [("ic_notification.png", result)]
  | none => []

/-- The converter table of `detect_svg_converter` (lines 64-68). -/
def converters : List (String × List String) :=
  [("rsvg-convert", ["rsvg-convert", "--version"]),
   ("inkscape", ["inkscape", "--version"]),
   ("magick", ["magick", "-version"])]

/-- The loop of `detect_svg_converter` (lines 70-78): `runOk cmd` is whether
`subprocess.run(cmd, capture_output=True, check=True)` completes without an
exception; a nonzero exit and any other exception are both caught by the
bare `except` and skip to the next converter.  The fallthrough default is
`'magick'`. -/
def detectLoop (runOk : List String → Bool) :
    List (String × List String) → String
  | [] => "magick"
  | c :: rest => if runOk c.2 then c.1 else detectLoop runOk rest

/-- `detect_svg_converter` (lines 62-78). -/
def detect_svg_converter (runOk : List String → Bool) : String :=
  detectLoop runOk converters

/-- Does `needle` start `hay`? -/
def listStartsWith : List Char → List Char → Bool
  | [], _ => true
  | _ :: _, [] => false
  | c :: cs, d :: ds => c == d && listStartsWith cs ds

/-- Does `needle` occur anywhere in `hay` (Python's `in` on strings)? -/
def subOccurs (needle : List Char) : List Char → Bool
  | [] => needle.isEmpty
  | d :: ds => listStartsWith needle (d :: ds) || subOccurs needle ds

/-- The two adaptive-icon directories of `create_adaptive_icon_xml`
(lines 330-333), each with its `include_monochrome` flag. -/
def adaptiveIconConfigs : List (String × Bool) :=
  [("mipmap-anydpi-v26", false), ("mipmap-anydpi-v33", true)]

/-- The `xml_content` f-string of `create_adaptive_icon_xml` (lines 340-345). -/
def adaptiveXmlContent (includeMonochrome : Bool) : List Char :=
  let monochromeLine :=
    if includeMonochrome then
      ("    <monochrome android:drawable=\"@mipmap/ic_launcher_monochrome\"/>\n").data
    else ("").data
  ("<?xml version=\"1.0\" encoding=\"utf-8\"?>\n<adaptive-icon xmlns:android=\"http://schemas.android.com/apk/res/android\">\n    <background android:drawable=\"@color/ic_launcher_background\"/>\n    <foreground android:drawable=\"@mipmap/ic_launcher_foreground\"/>\n").data
    ++ monochromeLine ++ ("</adaptive-icon>").data

/-- `create_adaptive_icon_xml` (lines 328-348) as the list of files it
writes: (directory, file name, content), in write order. -/
def create_adaptive_icon_xml : List (String × String × List Char) :=
  adaptiveIconConfigs.flatMap (fun c =>
    [(c.1, "ic_launcher.xml", adaptiveXmlContent c.2),
     (c.1, "ic_launcher_round.xml", adaptiveXmlContent c.2)])

/-- The character class `[:\s]` of the fill regexes (ASCII whitespace). -/
def isSepCh (c : Char) : Bool :=
  c == ':' || c == ' ' || c == Char.ofNat 9 || c == Char.ofNat 10 ||
    c == Char.ofNat 13 || c == Char.ofNat 11 || c == Char.ofNat 12

/-- The character class `\s` (ASCII whitespace). -/
def isWsCh (c : Char) : Bool :=
  c == ' ' || c == Char.ofNat 9 || c == Char.ofNat 10 ||
    c == Char.ofNat 13 || c == Char.ofNat 11 || c == Char.ofNat 12

/-- The character class `["\']`. -/
def isQuoteCh (c : Char) : Bool :=
  c == Char.ofNat 34 || c == Char.ofNat 39

/-- The character class `[0-9a-fA-F]`. -/
def isHexCh (c : Char) : Bool :=
  ("0123456789abcdefABCDEF").data.contains c

/-- An uppercase hexadecimal digit. -/
def isUpperHexCh (c : Char) : Bool :=
  ("0123456789ABCDEF").data.contains c

/-- The optional quote `["\']?`: the class is disjoint from what may follow,
so consuming a present quote never needs backtracking. -/
def dropQuote (l : List Char) : List Char :=
  match l with
  | c :: t => if isQuoteCh c then t else l
  | [] => l

/-- A match of `fill[:\s]*["\']?(#[0-9a-fA-F]{6})` anchored at the start of
`l`, returning capture group 1.  Each quantified class is disjoint from the
element after it, so maximal munch is exactly Python's backtracking. -/
def matchHexAt (l : List Char) : Option (List Char) :=
  if listStartsWith ("fill").data l then
    match dropQuote ((l.drop 4).dropWhile isSepCh) with
    | '#' :: c1 :: c2 :: c3 :: c4 :: c5 :: c6 :: _ =>
        if isHexCh c1 && isHexCh c2 && isHexCh c3 &&
            isHexCh c4 && isHexCh c5 && isHexCh c6 then
          some ('#' :: [c1, c2, c3, c4, c5, c6])
        else none
    | _ => none
  else none

/-- `re.search` of the hex fill pattern (line 87): the leftmost match. -/
def searchHex : List Char → Option (List Char)
  | [] => none
  | c :: t =>
    match matchHexAt (c :: t) with
    | some g => some g
    | none => searchHex t

/-- A match of `fill[:\s]*["\']?rgb\((\d+),\s*(\d+),\s*(\d+)\)` anchored at
the start of `l`, returning the three digit-string groups. -/
def matchRgbAt (l : List Char) : Option (List Char × List Char × List Char) :=
  if listStartsWith ("fill").data l then
    let r := dropQuote ((l.drop 4).dropWhile isSepCh)
    if listStartsWith ("rgb(").data r then
      let r3 := r.drop 4
      let d1 := r3.takeWhile Char.isDigit
      if d1.isEmpty then none else
      match r3.dropWhile Char.isDigit with
      | ',' :: r5 =>
        let r6 := r5.dropWhile isWsCh
        let d2 := r6.takeWhile Char.isDigit
        if d2.isEmpty then none else
        match r6.dropWhile Char.isDigit with
        | ',' :: r8 =>
          let r9 := r8.dropWhile isWsCh
          let d3 := r9.takeWhile Char.isDigit
          if d3.isEmpty then none else
          match r9.dropWhile Char.isDigit with
          | ')' :: _ => some (d1, d2, d3)
          | _ => none
        | _ => none
      | _ => none
    else none
  else none

/-- `re.search` of the rgb fill pattern (line 92): the leftmost match. -/
def searchRgb : List Char → Option (List Char × List Char × List Char)
  | [] => none
  | c :: t =>
    match matchRgbAt (c :: t) with
    | some g => some g
    | none => searchRgb t

/-- Python `int` on a matched decimal digit string. -/
def natOfDigits (l : List Char) : Nat :=
  l.foldl (fun n c => n * 10 + (c.toNat - 48)) 0

/-- The uppercase hexadecimal digit of a value below 16. -/
def hexDigit (n : Nat) : Char :=
  ("0123456789ABCDEF").data.getD n '0'

/-- Hexadecimal digits of `n`, most significant first; the first argument is
fuel bounding the recursion depth. -/
def toHexCore : Nat → Nat → List Char
  | 0, _ => []
  | fuel + 1, n =>
    if n = 0 then [] else toHexCore fuel (n / 16) ++ [hexDigit (n % 16)]

/-- Python `'%X' % n`: uppercase hexadecimal, `"0"` for zero. -/
def pyHexUpper (n : Nat) : List Char :=
  if n = 0 then ['0'] else toHexCore (n + 1) n

/-- Python `'%02X' % n` (the `f"{v:02X}"` pieces of line 95): padded to at
least two digits, never truncated. -/
def fmt02X (n : Nat) : List Char :=
  let d := pyHexUpper n
  if d.length < 2 then '0' :: d else d

/-- Python `str.upper` on one character, for the ASCII text the captured
group can hold. -/
def pyUpperChar (c : Char) : Char :=
  if 'a' ≤ c ∧ c ≤ 'z' then Char.ofNat (c.toNat - 32) else c

/-- `extract_svg_color` (lines 80-97) applied to the SVG file's text: the
hex pattern first, uppercased; else the rgb pattern formatted through
`%02X`; else `None`. -/
def extract_svg_color (svg : List Char) : Option (List Char) :=
  match searchHex svg with
  | some g => some (g.map pyUpperChar)
  | none =>
    match searchRgb svg with
    | some t =>
        some ('#' :: (fmt02X (natOfDigits t.1) ++
          fmt02X (natOfDigits t.2.1) ++ fmt02X (natOfDigits t.2.2)))
    | none => none

/-- `self.background_color` as the constructor assigns it (line 55): the
extracted color when it is truthy (it is never the empty string), else the
literal fallback.  `extract_svg_color` never returns an empty string, so
Python's truthiness test is the `Option` match. -/
def background_color (svg : List Char) : List Char :=
  match extract_svg_color svg with
  | some c => c
  | none => ("#3A7BE0").data

/-- `'#'` followed by exactly six uppercase hexadecimal digits. -/
def isColorShape (s : List Char) : Bool :=
  match s with
  | '#' :: rest => rest.length == 6 && rest.all isUpperHexCh
  | _ => false

/-- The generated files `verify_results` looks at: the sample foreground,
monochrome and notification PNGs and the colors.xml text, each present or
absent.  A present image is the RGBA PNG the run itself wrote. -/
structure VerifyFS where
  fgFile : Option Img
  monoFile : Option Img
  notifFile : Option Img
  colorsFile : Option (List Char)

/-- The error opening or reading an absent file would raise. -/
inductive IOErr where
  | fileNotFound
deriving DecidableEq, Repr

/-- `Image.open` / `read_text`: succeeds exactly when the file is present. -/
def openFile {α : Type} (f : Option α) : Except IOErr α :=
  match f with
  | some v => Except.ok v
  | none => Except.error IOErr.fileNotFound

/-- `np.sum(data[:,:,3] > 0)`: how many pixels have non-zero alpha. -/
def countNonTransparent (img : Img) : Nat := (alphaCoords img).length

/-- The sum of the r, g and b channels over the pixels with non-zero alpha
(the entries of `pixels[:, :3]` for `mask = data[:,:,3] > 0`). -/
def sumMaskedRGB (img : Img) : Nat :=
  (alphaCoords img).foldl (fun acc c =>
    acc + (img.pix c.1 c.2).r + (img.pix c.1 c.2).g + (img.pix c.1 c.2).b) 0

/-- `np.mean(pixels[:, :3])` over the masked pixels, as an exact rational. -/
def meanMaskedRGB (img : Img) : ℚ :=
  (sumMaskedRGB img : ℚ) / (3 * (countNonTransparent img : ℚ))

/-- The foreground check of `verify_results` (lines 522-538): open the file
only when it exists, then report. -/
def checkForeground (s : VerifyFS) : Except IOErr (List String) :=
  if s.fgFile.isSome then
    match openFile s.fgFile with
    | Except.error e => Except.error e
    | Except.ok img =>
      let n := countNonTransparent img
      if 0 < n then
        let isWhite := decide (250 < meanMaskedRGB img)
        Except.ok [if isWhite then "Foreground: White" else "Foreground: Not white",
          "Non-transparent pixels: " ++ toString n]
      else Except.ok ["Foreground is empty!"]
  else Except.ok []

/-- The monochrome check of `verify_results` (lines 541-546). -/
def checkMonochrome (s : VerifyFS) : Except IOErr (List String) :=
  if s.monoFile.isSome then
    match openFile s.monoFile with
    | Except.error e => Except.error e
    | Except.ok img =>
      let n := countNonTransparent img
      Except.ok [(if 0 < n then "Monochrome: ok" else "Monochrome: Empty") ++
        " (" ++ toString n ++ " pixels)"]
  else Except.ok []

/-- The notification check of `verify_results` (lines 549-551): existence
only, nothing is opened. -/
def checkNotification (s : VerifyFS) : List String :=
  if s.notifFile.isSome then ["Notification icon: Created"] else []

/-- The colors.xml check of `verify_results` (lines 554-560). -/
def checkColors (bg : List Char) (s : VerifyFS) : Except IOErr (List String) :=
  if s.colorsFile.isSome then
    match openFile s.colorsFile with
    | Except.error e => Except.error e
    | Except.ok content =>
      if subOccurs bg content then Except.ok ["Background color: set"]
      else Except.ok ["Background color: Not set correctly"]
  else Except.ok []

/-- `verify_results` (lines 518-560): the four checks in program order; an
exception in any would propagate; the files are never written, so the
resulting tree is returned unchanged beside the printed report. -/
def verify_results (bg : List Char) (s : VerifyFS) :
    Except IOErr (VerifyFS × List String) :=
  match checkForeground s with
  | Except.error e => Except.error e
  | Except.ok m1 =>
    match checkMonochrome s with
    | Except.error e => Except.error e
    | Except.ok m2 =>
      let m3 := checkNotification s
      match checkColors bg s with
      | Except.error e => Except.error e
      | Except.ok m4 => Except.ok (s, m1 ++ m2 ++ m3 ++ m4)

/-- The state `run` manipulates: whether `temp_icons` exists, and the other
generated files, untouched by setup and cleanup. -/
structure RunState where
  tempExists : Bool
  outputs : List String
deriving DecidableEq, Repr

/-- `setup` (lines 99-102): `temp_dir.mkdir(exist_ok=True)` and the icon
directories; afterwards `temp_icons` exists. -/
def setup (s : RunState) : RunState :=
  RunState.mk true s.outputs

/-- `cleanup` (lines 104-107): remove `temp_icons` when it exists. -/
def cleanup (s : RunState) : RunState :=
  if s.tempExists then RunState.mk false s.outputs else s

/-- `run` (lines 562-587): `setup` and the generation steps inside `try`,
`cleanup` in `finally`.  `body` is everything the `try` block does after
`setup`: it returns the state it reached and, when it raised, the
exception, which `run` re-raises after the `finally` clause ran. -/
def run {E : Type} (body : RunState → RunState × Option E) (s : RunState) :
    Except E Unit × RunState :=
  match body (setup s) with
  | (s2, none) => (Except.ok (), cleanup s2)
  | (s2, some e) => (Except.error e, cleanup s2)

/-- A concrete rasterizer output used to instantiate hypotheses. -/
def sampleSrcImg : Img := Img.mk 2 2 (fun _ _ => Pixel.mk 1 2 3 255)

/-- C1: in the recolor step of `create_white_foreground` (and
`create_notification_icon`), a pixel with alpha `a > 0` becomes
`(255, 255, 255, a)` and a pixel with `a = 0` is left unchanged; in
`create_monochrome_icon` a pixel with `a > 0` becomes `(0, 0, 0, a)` and one
with `a = 0` becomes `(0, 0, 0, 0)`; in all three the alpha channel of every
pixel is preserved exactly. -/
theorem recolor_preserves_alpha_spec (p : Pixel) (img : Img) (x y : Nat) :
    whitePixel p = (if 0 < p.a then Pixel.mk 255 255 255 p.a else p) ∧
    monoPixel p = (if 0 < p.a then Pixel.mk 0 0 0 p.a else Pixel.mk 0 0 0 0) ∧
    (whitePixel p).a = p.a ∧
    (monoPixel p).a = p.a ∧
    (whiteOut img).pix x y = whitePixel (img.pix x y) ∧
    (whiteOut img).w = img.w ∧ (whiteOut img).h = img.h ∧
    (monoOut img).pix x y = monoPixel (img.pix x y) ∧
    (monoOut img).w = img.w ∧ (monoOut img).h = img.h := by
  refine ⟨rfl, rfl, ?_, ?_, rfl, rfl, rfl, rfl, rfl, rfl⟩
  · by_cases h : 0 < p.a <;> simp [whitePixel, h]
  · by_cases h : 0 < p.a
    · simp [monoPixel, h]
    · simp [monoPixel, h]
      omega

/-- C3 counterexample: in `create_white_foreground` the paste x-position for
canvas size 108 and resized width 48 is 33, not the centered
`(108 - 48) // 2 = 30`, because of the `ICON_OFFSET_X` term. -/
theorem paste_centered_counterexample :
    foregroundPasteX 108 48 = 33 ∧ (108 - 48) / 2 = 30 ∧
    foregroundPasteX 108 48 ≠ (108 - 48) / 2 := by decide

/-- C3 amended: the notification path pastes centered,
`x = (size - new_w) // 2`, and every path centers vertically,
`y = (size - new_h) // 2`; but the white-foreground and monochrome paths
paste at `x = (size - new_w) // 2 + int(size * ICON_OFFSET_X)` with
`ICON_OFFSET_X = 0.03`. -/
theorem paste_position_spec (size nw nh : Nat) :
    notificationPasteX size nw = (size - nw) / 2 ∧
    notificationPasteY size nh = (size - nh) / 2 ∧
    foregroundPasteY size nh = (size - nh) / 2 ∧
    foregroundPasteX size nw = (size - nw) / 2 + iconOffsetX size ∧
    iconOffsetX size = size * 3 / 100 :=
  ⟨rfl, rfl, rfl, rfl, rfl⟩

/-- C4: `detect_svg_converter` returns the first converter in the order
rsvg-convert, inkscape, magick whose version check succeeds, and `'magick'`
when none does (failures and exceptions alike are skipped); the result is
always one of the three names. -/
theorem detect_svg_converter_spec (runOk : List String → Bool) :
    (detect_svg_converter runOk =
      if runOk ["rsvg-convert", "--version"] then "rsvg-convert"
      else if runOk ["inkscape", "--version"] then "inkscape"
      else "magick") ∧
    (detect_svg_converter runOk = "rsvg-convert" ∨
     detect_svg_converter runOk = "inkscape" ∨
     detect_svg_converter runOk = "magick") := by
  by_cases h1 : runOk ["rsvg-convert", "--version"] <;>
    by_cases h2 : runOk ["inkscape", "--version"] <;>
      by_cases h3 : runOk ["magick", "-version"] <;>
        simp [detect_svg_converter, converters, detectLoop, h1, h2, h3]

/-- After `cleanup`, the temporary directory never exists. -/
theorem cleanup_tempExists (s : RunState) : (cleanup s).tempExists = false := by
  unfold cleanup
  split
  · rfl
  · rename_i h
    simpa using h

/-- C6: `run` always removes `temp_icons` before returning — whether the
generation body completes or raises, the `finally` cleanup leaves the
temporary directory absent. -/
theorem run_cleanup_spec {E : Type} (body : RunState → RunState × Option E)
    (s : RunState) : ((run body s).2).tempExists = false := by
  unfold run
  rcases hb : body (setup s) with ⟨s2, e⟩
  cases e
  all_goals simp [cleanup_tempExists]

set_option maxRecDepth 8000 in
/-- C7: `create_adaptive_icon_xml` writes exactly the directories
mipmap-anydpi-v26 (XML with background and foreground entries, no monochrome
entry) and mipmap-anydpi-v33 (XML with the monochrome entry as well), and in
each directory `ic_launcher.xml` and `ic_launcher_round.xml` carry identical
content. -/
theorem create_adaptive_icon_xml_spec :
    (create_adaptive_icon_xml.map (fun e => e.1) =
      ["mipmap-anydpi-v26", "mipmap-anydpi-v26",
       "mipmap-anydpi-v33", "mipmap-anydpi-v33"]) ∧
    (create_adaptive_icon_xml.map (fun e => e.2.1) =
      ["ic_launcher.xml", "ic_launcher_round.xml",
       "ic_launcher.xml", "ic_launcher_round.xml"]) ∧
    (create_adaptive_icon_xml.map (fun e => e.2.2) =
      [adaptiveXmlContent false, adaptiveXmlContent false,
       adaptiveXmlContent true, adaptiveXmlContent true]) ∧
    subOccurs (("<background").data) (adaptiveXmlContent false) = true ∧
    subOccurs (("<foreground").data) (adaptiveXmlContent false) = true ∧
    subOccurs (("monochrome").data) (adaptiveXmlContent false) = false ∧
    subOccurs (("<background").data) (adaptiveXmlContent true) = true ∧
    subOccurs (("<foreground").data) (adaptiveXmlContent true) = true ∧
    subOccurs (("<monochrome").data) (adaptiveXmlContent true) = true :=
  ⟨rfl, rfl, rfl, rfl, rfl, rfl, rfl, rfl, rfl⟩

/-- The foreground check of `verify_results` cannot fail: the file is opened
only after its existence check. -/
theorem checkForeground_ok (s : VerifyFS) :
    ∃ m, checkForeground s = Except.ok m := by
  cases h : s.fgFile with
  | none => exact ⟨[], by simp [checkForeground, h]⟩
  | some img =>
      by_cases hn : 0 < countNonTransparent img
      · exact ⟨[if decide (250 < meanMaskedRGB img) then "Foreground: White"
            else "Foreground: Not white",
          "Non-transparent pixels: " ++ toString (countNonTransparent img)],
          by simp [checkForeground, h, openFile, hn]⟩
      · exact ⟨["Foreground is empty!"],
          by simp [checkForeground, h, openFile, hn]⟩

/-- The monochrome check of `verify_results` cannot fail. -/
theorem checkMonochrome_ok (s : VerifyFS) :
    ∃ m, checkMonochrome s = Except.ok m := by
  cases h : s.monoFile with
  | none => exact ⟨[], by simp [checkMonochrome, h]⟩
  | some img =>
      exact ⟨[(if 0 < countNonTransparent img then "Monochrome: ok"
          else "Monochrome: Empty") ++
          " (" ++ toString (countNonTransparent img) ++ " pixels)"],
        by simp [checkMonochrome, h, openFile]⟩

/-- The colors.xml check of `verify_results` cannot fail. -/
theorem checkColors_ok (bg : List Char) (s : VerifyFS) :
    ∃ m, checkColors bg s = Except.ok m := by
  cases h : s.colorsFile with
  | none => exact ⟨[], by simp [checkColors, h]⟩
  | some content =>
      by_cases ho : subOccurs bg content
      · exact ⟨["Background color: set"],
          by simp [checkColors, h, openFile, ho]⟩
      · exact ⟨["Background color: Not set correctly"],
          by simp [checkColors, h, openFile, ho]⟩

/-- C5: `verify_results` only reads files and reports — on every state of
the generated output tree, present or absent files alike, it returns the
tree unchanged and raises no error, so the run never fails because of
verification. -/
theorem verify_results_readonly_spec (bg : List Char) (s : VerifyFS) :
    ∃ ms, verify_results bg s = Except.ok (s, ms) := by
  obtain ⟨m1, h1⟩ := checkForeground_ok s
  obtain ⟨m2, h2⟩ := checkMonochrome_ok s
  obtain ⟨m4, h4⟩ := checkColors_ok bg s
  exact ⟨m1 ++ m2 ++ checkNotification s ++ m4,
    by simp [verify_results, h1, h2, h4]⟩

/-- C8: for `size > 0` and a rasterizer output no larger than the canvas,
`convert_svg_to_png_native` produces an RGBA image of dimensions exactly
`(size, size)`, the content pasted at `((size - img_w) // 2,
(size - img_h) // 2)` — a region that fits inside the canvas — and every
pixel outside the pasted region fully transparent. -/
theorem convert_square_spec (size : Nat) (img : Img) (px py : Nat)
    (_hs : 0 < size) (hw : img.w ≤ size) (hh : img.h ≤ size) :
    (convert_svg_to_png_native size img).w = size ∧
    (convert_svg_to_png_native size img).h = size ∧
    (size - img.w) / 2 + img.w ≤ size ∧
    (size - img.h) / 2 + img.h ≤ size ∧
    (((size - img.w) / 2 ≤ px ∧ px < (size - img.w) / 2 + img.w ∧
      (size - img.h) / 2 ≤ py ∧ py < (size - img.h) / 2 + img.h) →
      (convert_svg_to_png_native size img).pix px py =
        pasteMaskPixel (Pixel.mk 0 0 0 0)
          (img.pix (px - (size - img.w) / 2) (py - (size - img.h) / 2))) ∧
    (¬ ((size - img.w) / 2 ≤ px ∧ px < (size - img.w) / 2 + img.w ∧
        (size - img.h) / 2 ≤ py ∧ py < (size - img.h) / 2 + img.h) →
      (convert_svg_to_png_native size img).pix px py = Pixel.mk 0 0 0 0) := by
  refine ⟨rfl, rfl, ?_, ?_, ?_, ?_⟩
  · omega
  · omega
  · intro h
    simp only [convert_svg_to_png_native, pasteRGBA, newRGBA]
    rw [if_pos h]
  · intro h
    simp only [convert_svg_to_png_native, pasteRGBA, newRGBA]
    rw [if_neg h]

/-- C8 witness: the theorem at size 4, a 2-by-2 rasterizer output and the
corner pixel (0, 0), which lies outside the centered region and is
transparent. -/
theorem convert_square_witness :
    0 < 4 ∧ sampleSrcImg.w ≤ 4 ∧ sampleSrcImg.h ≤ 4 ∧
    ((convert_svg_to_png_native 4 sampleSrcImg).w = 4 ∧
     (convert_svg_to_png_native 4 sampleSrcImg).h = 4 ∧
     (4 - sampleSrcImg.w) / 2 + sampleSrcImg.w ≤ 4 ∧
     (4 - sampleSrcImg.h) / 2 + sampleSrcImg.h ≤ 4 ∧
     (((4 - sampleSrcImg.w) / 2 ≤ 0 ∧ 0 < (4 - sampleSrcImg.w) / 2 + sampleSrcImg.w ∧
       (4 - sampleSrcImg.h) / 2 ≤ 0 ∧ 0 < (4 - sampleSrcImg.h) / 2 + sampleSrcImg.h) →
       (convert_svg_to_png_native 4 sampleSrcImg).pix 0 0 =
         pasteMaskPixel (Pixel.mk 0 0 0 0)
           (sampleSrcImg.pix (0 - (4 - sampleSrcImg.w) / 2)
             (0 - (4 - sampleSrcImg.h) / 2))) ∧
     (¬ ((4 - sampleSrcImg.w) / 2 ≤ 0 ∧ 0 < (4 - sampleSrcImg.w) / 2 + sampleSrcImg.w ∧
         (4 - sampleSrcImg.h) / 2 ≤ 0 ∧ 0 < (4 - sampleSrcImg.h) / 2 + sampleSrcImg.h) →
       (convert_svg_to_png_native 4 sampleSrcImg).pix 0 0 = Pixel.mk 0 0 0 0)) ∧
    (convert_svg_to_png_native 4 sampleSrcImg).pix 0 0 = Pixel.mk 0 0 0 0 ∧
    (convert_svg_to_png_native 4 sampleSrcImg).pix 1 1 = Pixel.mk 1 2 3 255 :=
  ⟨by decide, by decide, by decide,
   convert_square_spec 4 sampleSrcImg 0 0 (by decide) (by decide) (by decide),
   by decide, by decide⟩

/-- `log2fuel` brackets its input between consecutive powers of two once the
fuel covers it. -/
theorem log2fuel_bounds (fuel : Nat) : ∀ n, 1 ≤ n → n ≤ fuel →
    2 ^ log2fuel fuel n ≤ n ∧ n < 2 ^ (log2fuel fuel n + 1) := by
  induction fuel with
  | zero => intro n h1 h2; omega
  | succ fuel ih =>
      intro n h1 h2
      rw [log2fuel]
      by_cases hn1 : n ≤ 1
      · rw [if_pos hn1]
        constructor
        · simpa using h1
        · have : n = 1 := by omega
          simp [this]
      · rw [if_neg hn1]
        obtain ⟨ihl, ihr⟩ := ih (n / 2) (by omega) (by omega)
        constructor
        · rw [pow_succ]
          omega
        · rw [pow_succ, pow_succ]
          rw [pow_succ] at ihr
          omega

/-- `natLog2` brackets its input between consecutive powers of two. -/
theorem natLog2_bounds (n : Nat) (h : 1 ≤ n) :
    2 ^ natLog2 n ≤ n ∧ n < 2 ^ (natLog2 n + 1) :=
  log2fuel_bounds n n h (le_refl n)

/-- Rounding half to even never exceeds an integer bound on the value. -/
theorem rheFrac_le (a b M : Nat) (hb : 0 < b) (h : a ≤ M * b) :
    rheFrac a b ≤ M := by
  have hdm : b * (a / b) + a % b = a := Nat.div_add_mod a b
  have hdivle : a / b ≤ M := by
    have := Nat.div_le_div_right (c := b) h
    rwa [Nat.mul_div_cancel _ hb] at this
  have key : b ≤ 2 * (a % b) → a / b + 1 ≤ M := by
    intro hge
    have hr1 : 1 ≤ a % b := by omega
    have h' : a ≤ b * M := by rw [mul_comm b M]; exact h
    have h1 : b * (a / b) < b * M := by omega
    have := Nat.lt_of_mul_lt_mul_left h1
    omega
  unfold rheFrac
  split
  · exact hdivle
  · split
    · exact key (by omega)
    · split
      · exact hdivle
      · exact key (by omega)

/-- `fracLog2` really is the binade: `2 ^ fracLog2 a b ≤ a/b <
2 ^ (fracLog2 a b + 1)`, so `roundFrac` scales the value into
`[2^52, 2^53)` and rounds at the correct significand position. -/
theorem fracLog2_spec (a b : Nat) (ha : 0 < a) (hb : 0 < b) :
    (2 : ℚ) ^ fracLog2 a b ≤ (a : ℚ) / b ∧
    (a : ℚ) / b < (2 : ℚ) ^ (fracLog2 a b + 1) := by
  have hbq : (0 : ℚ) < b := by exact_mod_cast hb
  have haq : (0 : ℚ) < a := by exact_mod_cast ha
  unfold fracLog2
  by_cases hba : b ≤ a
  · rw [if_pos hba]
    have hq1 : 1 ≤ a / b := (Nat.one_le_div_iff hb).mpr hba
    obtain ⟨hl, hr⟩ := natLog2_bounds (a / b) hq1
    constructor
    · rw [zpow_natCast]
      have h2 : ((a / b : Nat) : ℚ) ≤ (a : ℚ) / b := by
        rw [le_div_iff₀ hbq]
        exact_mod_cast Nat.div_mul_le_self a b
      calc (2 : ℚ) ^ natLog2 (a / b)
          = ((2 ^ natLog2 (a / b) : Nat) : ℚ) := by push_cast; ring
      _ ≤ ((a / b : Nat) : ℚ) := by exact_mod_cast hl
      _ ≤ (a : ℚ) / b := h2
    · have hNat : a < 2 ^ (natLog2 (a / b) + 1) * b := by
        have hdm := Nat.div_add_mod a b
        have hmod := Nat.mod_lt a hb
        have h4 : (a / b + 1) * b = b * (a / b) + b := by ring
        calc a < (a / b + 1) * b := by omega
        _ ≤ 2 ^ (natLog2 (a / b) + 1) * b := Nat.mul_le_mul_right b hr
      rw [show ((natLog2 (a / b) : ℤ) + 1) =
            ((natLog2 (a / b) + 1 : Nat) : ℤ) by push_cast; ring,
        zpow_natCast, div_lt_iff₀ hbq]
      exact_mod_cast hNat
  · rw [if_neg hba]
    have hab : a < b := Nat.lt_of_not_le hba
    have hq1 : 1 ≤ b / a := (Nat.one_le_div_iff ha).mpr (le_of_lt hab)
    obtain ⟨hl, hr⟩ := natLog2_bounds (b / a) hq1
    by_cases hpow : b = a * 2 ^ natLog2 (b / a)
    · rw [if_pos hpow]
      have hval : (a : ℚ) / b = (2 : ℚ) ^ (-(natLog2 (b / a) : ℤ)) := by
        have ha' : (a : ℚ) ≠ 0 := ne_of_gt haq
        have hbcast : (b : ℚ) = (a : ℚ) * 2 ^ natLog2 (b / a) := by
          exact_mod_cast congrArg (Nat.cast (R := ℚ)) hpow
        rw [hbcast, zpow_neg, zpow_natCast]
        field_simp
      constructor
      · rw [hval]
      · rw [hval]
        exact zpow_lt_zpow_right₀ (by norm_num) (by omega)
    · rw [if_neg hpow]
      constructor
      · have hNat : b < a * 2 ^ (natLog2 (b / a) + 1) := by
          have hdm := Nat.div_add_mod b a
          have hmod := Nat.mod_lt b ha
          have h4 : (b / a + 1) * a = a * (b / a) + a := by ring
          calc b < (b / a + 1) * a := by omega
          _ ≤ 2 ^ (natLog2 (b / a) + 1) * a := Nat.mul_le_mul_right a hr
          _ = a * 2 ^ (natLog2 (b / a) + 1) := by ring
        rw [show (-(natLog2 (b / a) : ℤ) - 1) =
              -((natLog2 (b / a) + 1 : Nat) : ℤ) by push_cast; ring,
          zpow_neg, zpow_natCast, inv_eq_one_div,
          div_le_div_iff₀ (by positivity) hbq, one_mul]
        exact_mod_cast le_of_lt hNat
      · have hNat : a * 2 ^ natLog2 (b / a) < b := by
          have h1 : a * 2 ^ natLog2 (b / a) ≤ a * (b / a) :=
            Nat.mul_le_mul_left a hl
          have h2 : a * (b / a) ≤ b := by
            rw [mul_comm]
            exact Nat.div_mul_le_self b a
          exact lt_of_le_of_ne (le_trans h1 h2) (fun he => hpow he.symm)
        rw [show (-(natLog2 (b / a) : ℤ) - 1 + 1) =
              -((natLog2 (b / a) : Nat) : ℤ) by ring,
          zpow_neg, zpow_natCast, inv_eq_one_div,
          div_lt_div_iff₀ hbq (by positivity), one_mul]
        exact_mod_cast hNat

/-- When the binade of `a / b` is at least `2^52` the fraction is at least
one, so the integer branch of `fracLog2` was taken. -/
theorem fracLog2_ge_imp_le (a b : Nat) (hb : 0 < b)
    (he : 52 ≤ fracLog2 a b) : b ≤ a := by
  by_contra hba
  have hneg : fracLog2 a b < 0 := by
    unfold fracLog2
    rw [if_neg hba]
    have hab : a < b := Nat.lt_of_not_le hba
    split
    · rename_i hpow
      have ha : 0 < a := by
        rcases Nat.eq_zero_or_pos a with h0 | h0
        · subst h0; simp at hpow; omega
        · exact h0
      have h1 : a * 1 < a * 2 ^ natLog2 (b / a) := by
        rw [Nat.mul_one, ← hpow]; exact hab
      have h2 : 1 < 2 ^ natLog2 (b / a) := Nat.lt_of_mul_lt_mul_left h1
      have h3 : natLog2 (b / a) ≠ 0 := by
        intro h0; rw [h0] at h2; simp at h2
      omega
    · omega
  omega

/-- The value bound of one binary64 rounding step: rounding a non-negative
fraction bounded by the representable integer `t ≤ 2^53` stays bounded by
`t`.  This is where `t`'s representability matters: at the top binade the
bound forces the exact value `2^53`, which rounds to itself. -/
theorem roundFrac_le (a b t : Nat) (hb : 0 < b) (ht : t ≤ 2 ^ 53)
    (h : a ≤ t * b) : (roundFrac a b).1 ≤ t * (roundFrac a b).2 := by
  by_cases ha : a = 0
  · subst ha
    simp [roundFrac]
  · rw [roundFrac, if_neg ha]
    by_cases he : 52 ≤ fracLog2 a b
    · rw [if_pos he]
      have hba : b ≤ a := fracLog2_ge_imp_le a b hb he
      have hfe : fracLog2 a b = (natLog2 (a / b) : ℤ) := by
        unfold fracLog2
        rw [if_pos hba]
      have hq1 : 1 ≤ a / b := (Nat.one_le_div_iff hb).mpr hba
      obtain ⟨hlow, hhigh⟩ := natLog2_bounds (a / b) hq1
      have hub : a / b ≤ 2 ^ 53 := by
        have h1 : a ≤ 2 ^ 53 * b := le_trans h (Nat.mul_le_mul_right b ht)
        have h2 := Nat.div_le_div_right (c := b) h1
        rwa [Nat.mul_div_cancel _ hb] at h2
      have hL53 : natLog2 (a / b) ≤ 53 := by
        have := le_trans hlow hub
        exact (Nat.pow_le_pow_iff_right (by norm_num)).mp this
      have hL52 : 52 ≤ natLog2 (a / b) := by
        rw [hfe] at he
        exact_mod_cast he
      rcases (by omega : natLog2 (a / b) = 52 ∨ natLog2 (a / b) = 53) with
        h52 | h53
      · rw [hfe, h52]
        norm_num
        exact rheFrac_le a b t hb h
      · rw [hfe, h53]
        norm_num
        have hge : 2 ^ 53 ≤ a / b := by rw [← h53]; exact hlow
        have hage : 2 ^ 53 * b ≤ a := (Nat.le_div_iff_mul_le hb).mp hge
        have hale : a ≤ 2 ^ 53 * b := le_trans h (Nat.mul_le_mul_right b ht)
        have haeq : a = 2 ^ 53 * b := le_antisymm hale hage
        have hteq : 2 ^ 53 ≤ t := by
          have h1 : 2 ^ 53 * b ≤ t * b := by rw [← haeq]; exact h
          exact Nat.le_of_mul_le_mul_right h1 hb
        have harg : a = 2 ^ 52 * (b * 2) := by rw [haeq]; ring
        rw [harg]
        have hbb : 0 < b * 2 := by omega
        unfold rheFrac
        rw [Nat.mul_div_cancel _ hbb, Nat.mul_mod_left]
        rw [if_pos (by omega)]
        calc 2 ^ 52 * 2 = 2 ^ 53 := by norm_num [pow_succ]
        _ ≤ t := hteq
    · rw [if_neg he]
      refine rheFrac_le _ b _ hb ?_
      calc a * 2 ^ (52 - fracLog2 a b).toNat
          ≤ (t * b) * 2 ^ (52 - fracLog2 a b).toNat :=
            Nat.mul_le_mul_right _ h
      _ = (t * 2 ^ (52 - fracLog2 a b).toNat) * b := by ring

/-- The denominator of a rounded fraction is positive. -/
theorem roundFrac_den_pos (a b : Nat) : 0 < (roundFrac a b).2 := by
  unfold roundFrac
  split
  · norm_num
  · split
    · norm_num
    · exact Nat.pos_pow_of_pos _ (by norm_num)

/-- Truncating a fraction bounded by `t` times its denominator gives at
most `t`. -/
theorem fracTrunc_le (p : Nat × Nat) (t : Nat) (hd : 0 < p.2)
    (h : p.1 ≤ t * p.2) : fracTrunc p ≤ t := by
  unfold fracTrunc
  have := Nat.div_le_div_right (c := p.2) h
  rwa [Nat.mul_div_cancel _ hd] at this

/-- A fraction with positive denominator exceeds one exactly when its
numerator exceeds its denominator. -/
theorem fracVal_one_lt_iff (p : Nat × Nat) (hd : 0 < p.2) :
    1 < fracVal p ↔ p.2 < p.1 := by
  unfold fracVal
  rw [lt_div_iff₀ (by exact_mod_cast hd), one_mul]
  exact_mod_cast Iff.rfl

/-- The target never exceeds the canvas size. -/
theorem targetSize_le (size : Nat) : targetSize size ≤ size := by
  unfold targetSize
  omega

/-- C2: for cropped content of positive width and height and the target
`t = int(size * ICON_SCALE)`, the resize step produces dimensions whose
maximum is exactly `t`, neither exceeding `t`, with the aspect ratio
preserved up to integer truncation of the binary64 arithmetic the program
performs: the double `aspect = w / h` is `roundFrac w h`; when it exceeds
one the width is pinned to `t` and the height is `int(t / aspect)`,
otherwise the height is pinned and the width is `int(t * aspect)`. -/
theorem resize_dims_spec (size w h : Nat) (_hw : 0 < w) (_hh : 0 < h)
    (hsize : size ≤ 2 ^ 53) :
    Nat.max (resizeDims w h (targetSize size)).1
        (resizeDims w h (targetSize size)).2 = targetSize size ∧
    (resizeDims w h (targetSize size)).1 ≤ targetSize size ∧
    (resizeDims w h (targetSize size)).2 ≤ targetSize size ∧
    (1 < fracVal (roundFrac w h) ↔ (roundFrac w h).2 < (roundFrac w h).1) ∧
    (1 < fracVal (roundFrac w h) →
      resizeDims w h (targetSize size) =
        (targetSize size,
         fracTrunc (roundFrac (targetSize size * (roundFrac w h).2)
           (roundFrac w h).1))) ∧
    (¬ 1 < fracVal (roundFrac w h) →
      resizeDims w h (targetSize size) =
        (fracTrunc (roundFrac (targetSize size * (roundFrac w h).1)
           (roundFrac w h).2),
         targetSize size)) := by
  have ht : targetSize size ≤ 2 ^ 53 := le_trans (targetSize_le size) hsize
  have hdp : 0 < (roundFrac w h).2 := roundFrac_den_pos w h
  have hiff := fracVal_one_lt_iff (roundFrac w h) hdp
  by_cases hc : (roundFrac w h).2 < (roundFrac w h).1
  · have hdims : resizeDims w h (targetSize size) =
        (targetSize size,
         fracTrunc (roundFrac (targetSize size * (roundFrac w h).2)
           (roundFrac w h).1)) := by
      simp only [resizeDims]
      rw [if_pos hc]
    have hb : 0 < (roundFrac w h).1 := lt_of_le_of_lt (Nat.zero_le _) hc
    have hr := roundFrac_le (targetSize size * (roundFrac w h).2)
      (roundFrac w h).1 (targetSize size) hb ht
      (Nat.mul_le_mul_left _ (le_of_lt hc))
    have hnh := fracTrunc_le _ (targetSize size) (roundFrac_den_pos _ _) hr
    refine ⟨?_, ?_, ?_, hiff, fun _ => hdims,
      fun hn => absurd (hiff.mpr hc) hn⟩
    · rw [hdims]
      exact Nat.max_eq_left hnh
    · rw [hdims]
    · rw [hdims]
      exact hnh
  · have hdims : resizeDims w h (targetSize size) =
        (fracTrunc (roundFrac (targetSize size * (roundFrac w h).1)
           (roundFrac w h).2),
         targetSize size) := by
      simp only [resizeDims]
      rw [if_neg hc]
    have hr := roundFrac_le (targetSize size * (roundFrac w h).1)
      (roundFrac w h).2 (targetSize size) hdp ht
      (Nat.mul_le_mul_left _ (Nat.le_of_not_lt hc))
    have hnw := fracTrunc_le _ (targetSize size) (roundFrac_den_pos _ _) hr
    refine ⟨?_, ?_, ?_, hiff, fun hp => absurd (hiff.mp hp) hc,
      fun _ => hdims⟩
    · rw [hdims]
      exact Nat.max_eq_right hnw
    · rw [hdims]
      exact hnw
    · rw [hdims]

/-- C2 witness: the theorem at mdpi size 108 (target 48) and a 3-by-2 crop,
whose resize evaluates to `(48, 32)`; and two evaluations separating the
binary64 embedding from exact arithmetic: at hdpi target 72 a 9-by-7 crop
gives height `int(72 / (9/7)) = 55` (the exact quotient 56 is unreachable,
the double `9/7` being slightly above the true ratio), while a 7-by-9 crop
gives width `int(72 * (7/9)) = 56`. -/
theorem resize_dims_witness :
    0 < 3 ∧ 0 < 2 ∧ 108 ≤ 2 ^ 53 ∧
    (Nat.max (resizeDims 3 2 (targetSize 108)).1
        (resizeDims 3 2 (targetSize 108)).2 = targetSize 108 ∧
     (resizeDims 3 2 (targetSize 108)).1 ≤ targetSize 108 ∧
     (resizeDims 3 2 (targetSize 108)).2 ≤ targetSize 108 ∧
     (1 < fracVal (roundFrac 3 2) ↔ (roundFrac 3 2).2 < (roundFrac 3 2).1) ∧
     (1 < fracVal (roundFrac 3 2) →
       resizeDims 3 2 (targetSize 108) =
         (targetSize 108,
          fracTrunc (roundFrac (targetSize 108 * (roundFrac 3 2).2)
            (roundFrac 3 2).1))) ∧
     (¬ 1 < fracVal (roundFrac 3 2) →
       resizeDims 3 2 (targetSize 108) =
         (fracTrunc (roundFrac (targetSize 108 * (roundFrac 3 2).1)
            (roundFrac 3 2).2),
          targetSize 108))) ∧
    targetSize 108 = 48 ∧
    resizeDims 3 2 (targetSize 108) = (48, 32) ∧
    resizeDims 9 7 72 = (72, 55) ∧
    resizeDims 7 9 72 = (56, 72) :=
  ⟨by decide, by decide, by decide,
   resize_dims_spec 108 3 2 (by decide) (by decide) (by decide),
   by decide, by decide, by decide, by decide⟩

/-- A fully transparent image yields no non-zero-alpha coordinates. -/
theorem alphaCoords_eq_nil (img : Img)
    (h : ∀ x y, x < img.w → y < img.h → (img.pix x y).a = 0) :
    alphaCoords img = [] := by
  apply List.eq_nil_iff_forall_not_mem.mpr
  intro c hc
  simp only [alphaCoords, List.mem_flatMap, List.mem_filterMap,
    List.mem_range] at hc
  obtain ⟨y, hy, x, hx, hifc⟩ := hc
  rw [if_neg (by simp [h x y hx hy])] at hifc
  exact Option.noConfusion hifc

/-- `getbbox` of a fully transparent image is `None`. -/
theorem getbbox_eq_none (img : Img)
    (h : ∀ x y, x < img.w → y < img.h → (img.pix x y).a = 0) :
    getbbox img = none := by
  unfold getbbox
  rw [alphaCoords_eq_nil img h]

/-- C9: when the rasterized source image is fully transparent
(`getbbox()` is `None`), `create_white_foreground` and
`create_monochrome_icon` write no output PNG and their final
`return output_path` raises an unbound-local error, because `output_path`
is only assigned inside the non-empty-bounds branch. -/
theorem fully_transparent_unbound_local_spec
    (resample : Img → Nat → Nat → Nat → Nat → Pixel) (size : Nat) (img : Img)
    (h : ∀ x y, x < img.w → y < img.h → (img.pix x y).a = 0) :
    create_white_foreground resample size img =
      ([], Except.error PyErr.unboundLocal) ∧
    create_monochrome_icon resample size img =
      ([], Except.error PyErr.unboundLocal) := by
  have hb : getbbox img = none := getbbox_eq_none img h
  constructor
  · simp [create_white_foreground, hb]
  · simp [create_monochrome_icon, hb]

/-- C9 witness: the theorem at size 4 on a transparent 2-by-2 canvas, with
the identity resampling kernel. -/
theorem fully_transparent_unbound_local_witness :
    (∀ x y, x < (newRGBA 2 2).w → y < (newRGBA 2 2).h →
      ((newRGBA 2 2).pix x y).a = 0) ∧
    create_white_foreground (fun i _ _ => i.pix) 4 (newRGBA 2 2) =
      ([], Except.error PyErr.unboundLocal) ∧
    create_monochrome_icon (fun i _ _ => i.pix) 4 (newRGBA 2 2) =
      ([], Except.error PyErr.unboundLocal) :=
  ⟨fun _ _ _ _ => rfl,
   fully_transparent_unbound_local_spec (fun i _ _ => i.pix) 4 (newRGBA 2 2)
     (fun _ _ _ _ => rfl)⟩

/-- Every hexadecimal digit character the formatter emits is uppercase. -/
theorem hexDigit_upper (n : Nat) : isUpperHexCh (hexDigit n) = true := by
  by_cases h : n < 16
  · exact (by decide :
      ∀ m, m < 16 → isUpperHexCh (hexDigit m) = true) n h
  · unfold hexDigit
    rw [List.getD_eq_default _ _ (by simpa using Nat.le_of_not_lt h)]
    decide

/-- Zero produces no digits regardless of fuel. -/
theorem toHexCore_zero (fuel : Nat) : toHexCore fuel 0 = [] := by
  cases fuel <;> simp [toHexCore]

/-- One hexadecimal digit suffices below 16. -/
theorem toHexCore_small (fuel n : Nat) (h : n < 16) :
    toHexCore (fuel + 1) n = if n = 0 then [] else [hexDigit n] := by
  by_cases h0 : n = 0
  · simp [toHexCore, h0]
  · have hdiv : n / 16 = 0 := Nat.div_eq_of_lt h
    have hmod : n % 16 = n := Nat.mod_eq_of_lt h
    simp [toHexCore, h0, hdiv, hmod, toHexCore_zero]

/-- Python's `%02X` of a byte value: exactly two uppercase hexadecimal
digits. -/
theorem fmt02X_spec (n : Nat) (h : n < 256) :
    (fmt02X n).length = 2 ∧ (fmt02X n).all isUpperHexCh = true := by
  by_cases h0 : n = 0
  · subst h0
    decide
  · by_cases h16 : n < 16
    · have hone : pyHexUpper n = [hexDigit n] := by
        unfold pyHexUpper
        rw [if_neg h0, toHexCore_small n n h16, if_neg h0]
      unfold fmt02X
      rw [hone]
      simp [hexDigit_upper]
      decide
    · obtain ⟨m, rfl⟩ : ∃ m, n = m + 1 := ⟨n - 1, by omega⟩
      have htwo : pyHexUpper (m + 1) =
          [hexDigit ((m + 1) / 16), hexDigit ((m + 1) % 16)] := by
        unfold pyHexUpper
        rw [if_neg h0]
        show (if m + 1 = 0 then [] else
          toHexCore (m + 1) ((m + 1) / 16) ++ [hexDigit ((m + 1) % 16)]) = _
        rw [if_neg h0]
        obtain ⟨k, hk⟩ : ∃ k, m = k + 1 := ⟨m - 1, by omega⟩
        subst hk
        rw [toHexCore_small (k + 1) ((k + 1 + 1) / 16) (by omega),
          if_neg (by omega)]
        rfl
      unfold fmt02X
      rw [htwo]
      simp [hexDigit_upper]

/-- `str.upper` keeps a hexadecimal digit hexadecimal and makes it
uppercase. -/
theorem pyUpperChar_hex (c : Char) (h : isHexCh c = true) :
    isUpperHexCh (pyUpperChar c) = true := by
  have hm : c ∈ ("0123456789abcdefABCDEF").data := by
    simpa [isHexCh] using h
  fin_cases hm <;> decide

/-- `str.upper` fixes the hash character. -/
theorem pyUpperChar_pound : pyUpperChar '#' = '#' := by decide

/-- The capture group of the hex fill pattern is a hash followed by exactly
six characters of the class `[0-9a-fA-F]`. -/
theorem matchHexAt_shape (l g : List Char) (h : matchHexAt l = some g) :
    ∃ c1 c2 c3 c4 c5 c6, g = '#' :: [c1, c2, c3, c4, c5, c6] ∧
      isHexCh c1 = true ∧ isHexCh c2 = true ∧ isHexCh c3 = true ∧
      isHexCh c4 = true ∧ isHexCh c5 = true ∧ isHexCh c6 = true := by
  unfold matchHexAt at h
  split at h
  · split at h
    · split at h
      · rename_i hhex
        injection h with h
        subst h
        simp only [Bool.and_eq_true] at hhex
        exact ⟨_, _, _, _, _, _, rfl, hhex.1.1.1.1.1, hhex.1.1.1.1.2,
          hhex.1.1.1.2, hhex.1.1.2, hhex.1.2, hhex.2⟩
      · exact Option.noConfusion h
    · exact Option.noConfusion h
  · exact Option.noConfusion h

/-- What `re.search` of the hex fill pattern returns has the captured
shape. -/
theorem searchHex_shape (l : List Char) (g : List Char)
    (h : searchHex l = some g) :
    ∃ c1 c2 c3 c4 c5 c6, g = '#' :: [c1, c2, c3, c4, c5, c6] ∧
      isHexCh c1 = true ∧ isHexCh c2 = true ∧ isHexCh c3 = true ∧
      isHexCh c4 = true ∧ isHexCh c5 = true ∧ isHexCh c6 = true := by
  induction l with
  | nil => exact Option.noConfusion h
  | cons c t ih =>
      rw [searchHex] at h
      cases hm : matchHexAt (c :: t) with
      | some g2 =>
          rw [hm] at h
          injection h with h
          subst h
          exact matchHexAt_shape (c :: t) g2 hm
      | none =>
          rw [hm] at h
          exact ih h

/-- C10 amended: provided every component matched by the rgb fill pattern is
at most 255 (so that `%02X` emits exactly two digits), `background_color`
always matches `'#'` followed by exactly six uppercase hexadecimal digits —
`extract_svg_color` returns `None` or such a string, and on `None` the
constructor falls back to the literal `'#3A7BE0'`. -/
theorem background_color_shape_spec (svg : List Char)
    (hrgb : ∀ r g b, searchRgb svg = some (r, g, b) →
      natOfDigits r ≤ 255 ∧ natOfDigits g ≤ 255 ∧ natOfDigits b ≤ 255) :
    isColorShape (background_color svg) = true ∧
    (extract_svg_color svg = none →
      background_color svg = ("#3A7BE0").data) := by
  constructor
  · unfold background_color extract_svg_color
    cases hh : searchHex svg with
    | some g =>
        obtain ⟨c1, c2, c3, c4, c5, c6, rfl, h1, h2, h3, h4, h5, h6⟩ :=
          searchHex_shape svg g hh
        simp [isColorShape, pyUpperChar_pound, pyUpperChar_hex _ h1,
          pyUpperChar_hex _ h2, pyUpperChar_hex _ h3, pyUpperChar_hex _ h4,
          pyUpperChar_hex _ h5, pyUpperChar_hex _ h6]
    | none =>
        cases hr : searchRgb svg with
        | some t =>
            obtain ⟨r, g, b⟩ := t
            obtain ⟨hb1, hb2, hb3⟩ := hrgb r g b hr
            obtain ⟨l1, a1⟩ := fmt02X_spec (natOfDigits r) (by omega)
            obtain ⟨l2, a2⟩ := fmt02X_spec (natOfDigits g) (by omega)
            obtain ⟨l3, a3⟩ := fmt02X_spec (natOfDigits b) (by omega)
            simp [isColorShape, List.all_append, l1, l2, l3, a1, a2, a3]
        | none => decide
  · intro hn
    unfold background_color
    rw [hn]

/-- C10 counterexample: on `fill:rgb(300, 0, 0)` the rgb branch formats the
component 300 as the three digits `12C`, so `extract_svg_color` returns
`#12C0000` — seven digits, not the claimed six — and `background_color`
does not match the claimed shape. -/
theorem background_color_shape_counterexample :
    extract_svg_color (("fill:rgb(300, 0, 0)").data) =
      some (("#12C0000").data) ∧
    background_color (("fill:rgb(300, 0, 0)").data) = ("#12C0000").data ∧
    isColorShape (background_color (("fill:rgb(300, 0, 0)").data)) = false := by
  refine ⟨?_, ?_, ?_⟩ <;> decide

/-- C10 witness: the theorem at the in-range input `fill: #1a2B3c`, whose
extracted color evaluates to `#1A2B3C`. -/
theorem background_color_shape_witness :
    (isColorShape (background_color (("fill: #1a2B3c").data)) = true ∧
     (extract_svg_color (("fill: #1a2B3c").data) = none →
       background_color (("fill: #1a2B3c").data) = ("#3A7BE0").data)) ∧
    background_color (("fill: #1a2B3c").data) = ("#1A2B3C").data :=
  ⟨background_color_shape_spec (("fill: #1a2B3c").data)
     (by
      intro r g b hr
      rw [show searchRgb (("fill: #1a2B3c").data) = none from rfl] at hr
      exact Option.noConfusion hr),
   by decide⟩

end NhacIcons
